import Mathlib

/-
  Shallow embedding of src/index.js (in-memory job registry).

  The embedding models the core state (the jobData Map, the lockedJobs Set,
  and the NodeCache entry under the key allJobs) and the three operations
  addJob, getAllJobs and removeJob.  JavaScript runtime values that can flow
  through these functions from the HTTP boundary are modelled by the type
  JSVal: a query parameter is either a string or undefined, and a direct
  caller may also pass a number (the removal path passes the literal 100).
  Each operation is modelled run-to-completion: the awaited setTimeout inside
  addJob and removeJob is a pure delay, so a single invocation executed
  without interleaving performs exactly the state changes modelled here.
  Time is an explicit natural-number parameter of getAllJobs; a cache entry
  stores its expiry deadline (set time plus the TTL of 10), and a read hits
  while now is strictly below the deadline, matching node-cache.
-/

namespace CrudJobs

/-- A JavaScript value as it can reach the registry functions: undefined,
a string (every query parameter), or an integer number. -/
inductive JSVal where
  | vundef : JSVal
  | vstr (s : String) : JSVal
  | vnum (n : Int) : JSVal
deriving DecidableEq

/-- JavaScript truthiness of a JSVal: undefined, the empty string and the
number 0 are falsy, everything else is truthy. -/
def truthy : JSVal → Bool
  | .vundef => false
  | .vstr s => !(s == "")
  | .vnum n => !(n == 0)

/-- Reads a nonempty all-digit character list as a natural number. -/
def digitsToNat : List Char → Option Nat
  | [] => none
  | l => if l.all (fun c => c.isDigit)
         then some (l.foldl (fun acc c => 10 * acc + (c.toNat - 48)) 0)
         else none

/-- JavaScript ToNumber restricted to integer-literal strings: the empty
string converts to 0, an optional minus sign followed by digits converts to
the signed value, and any other string is NaN (modelled as none). -/
def strToNumber (s : String) : Option Int :=
  match s.data with
  | [] => some 0
  | '-' :: rest => (digitsToNat rest).map (fun n => -(n : Int))
  | l => (digitsToNat l).map (fun n => (n : Int))

/-- JavaScript ToNumber on a JSVal; none stands for NaN. -/
def toNumber : JSVal → Option Int
  | .vundef => none
  | .vnum n => some n
  | .vstr s => strToNumber s

/-- Lexicographic less-than on character lists, the string case of the
JavaScript abstract relational comparison. -/
def strLtChars : List Char → List Char → Bool
  | _, [] => false
  | [], _ :: _ => true
  | a :: as, b :: bs => if a < b then true else if b < a then false else strLtChars as bs

/-- The JavaScript comparison a >= b: when both operands are strings it is
the negation of the lexicographic less-than; otherwise both operands are
converted to numbers and compared, with NaN making the comparison false. -/
def jsGe (a b : JSVal) : Bool :=
  match a, b with
  | .vstr x, .vstr y => !(strLtChars x.data y.data)
  | _, _ =>
    match toNumber a, toNumber b with
    | some x, some y => y ≤ x
    | _, _ => false

/-- The JavaScript subtraction a - b used by the sort comparator: both
operands are converted to numbers; none stands for NaN. -/
def jsSub (a b : JSVal) : Option Int :=
  match toNumber a, toNumber b with
  | some x, some y => some (x - y)
  | _, _ => none

/-- One element of the listing built by getAllJobs. -/
structure JobEntry where
  JobID : JSVal
  JobValue : JSVal
deriving DecidableEq

/-- JavaScript Map.has on an insertion-ordered association list. -/
def mapHas (m : List (JSVal × JSVal)) (k : JSVal) : Bool :=
  m.any (fun p => p.1 == k)

/-- JavaScript Map.set: updating an existing key keeps its position,
a new key is appended at the end. -/
def mapSet (m : List (JSVal × JSVal)) (k v : JSVal) : List (JSVal × JSVal) :=
  if mapHas m k then m.map (fun p => if p.1 == k then (k, v) else p)
  else m ++ [(k, v)]

/-- JavaScript Map.delete. -/
def mapDelete (m : List (JSVal × JSVal)) (k : JSVal) : List (JSVal × JSVal) :=
  m.filter (fun p => !(p.1 == k))

/-- JavaScript Set.has on the list of members in insertion order. -/
def setHas (s : List JSVal) (k : JSVal) : Bool :=
  s.any (fun x => x == k)

/-- JavaScript Set.add: no change when the member is already present. -/
def setAdd (s : List JSVal) (k : JSVal) : List JSVal :=
  if setHas s k then s else s ++ [k]

/-- JavaScript Set.delete. -/
def setDelete (s : List JSVal) (k : JSVal) : List JSVal :=
  s.filter (fun x => !(x == k))

/-- The mutable state of the registry: the jobData Map, the lockedJobs Set,
and the cache entry stored under the key allJobs together with its expiry
deadline (none when the entry is absent or was deleted). -/
structure RegState where
  jobData : List (JSVal × JSVal)
  lockedJobs : List JSVal
  cache : Option (List JobEntry × Nat)
deriving DecidableEq

/-- The state at process start: empty Map, empty Set, empty cache. -/
def initState : RegState := ⟨[], [], none⟩

/-- The four error kinds thrown by the registry, one per throw site. -/
inductive JobError where
  | invalidInput : JobError
  | alreadyExists : JobError
  | alreadyProcessing : JobError
  | notFound : JobError
deriving DecidableEq

/-- validateJobInput from the source: throws Invalid input data when either
argument is falsy. -/
def validateJobInput (jobid jobValue : JSVal) : Option JobError :=
  if !truthy jobid || !truthy jobValue then some .invalidInput else none

/-- addJob from the source, run to completion: validate, reject an existing
id, reject a locked id, then add the lock, wait, delete the lock, write the
job into the Map and delete the cache entry. -/
def addJob (σ : RegState) (jobid jobValue : JSVal) : Except JobError Unit × RegState :=
  match validateJobInput jobid jobValue with
  | some e => (.error e, σ)
  | none =>
    if mapHas σ.jobData jobid then (.error .alreadyExists, σ)
    else if setHas σ.lockedJobs jobid then (.error .alreadyProcessing, σ)
    else
      (.ok (), { jobData := mapSet σ.jobData jobid jobValue,
                 lockedJobs := setDelete (setAdd σ.lockedJobs jobid) jobid,
                 cache := none })

/-- removeJob from the source, run to completion: validate the id with the
placeholder value 100, reject a missing id, reject a locked id, then add the
lock, wait, delete the lock, delete the job from the Map and delete the
cache entry. -/
def removeJob (σ : RegState) (jobid : JSVal) : Except JobError Unit × RegState :=
  match validateJobInput jobid (.vnum 100) with
  | some e => (.error e, σ)
  | none =>
    if !mapHas σ.jobData jobid then (.error .notFound, σ)
    else if setHas σ.lockedJobs jobid then (.error .alreadyProcessing, σ)
    else
      (.ok (), { jobData := mapDelete σ.jobData jobid,
                 lockedJobs := setDelete (setAdd σ.lockedJobs jobid) jobid,
                 cache := none })

/-- The sort comparator of getAllJobs, a.JobValue - b.JobValue, folded into
the keep-in-order test of the ECMAScript stable sort: a stays before b when
the comparator value is at most 0, and a NaN comparator value is treated
as 0. -/
def cmpLe (a b : JobEntry) : Bool :=
  match jsSub a.JobValue b.JobValue with
  | some n => decide (n ≤ 0)
  | none => true

/-- Stable insertion of one element into an already sorted list, placing it
before the first element it need not follow. -/
def sortInsert (x : JobEntry) : List JobEntry → List JobEntry
  | [] => [x]
  | y :: ys => if cmpLe x y then x :: y :: ys else y :: sortInsert x ys

/-- The stable sort performed by jobs.sort with the numeric comparator. -/
def jsSort : List JobEntry → List JobEntry
  | [] => []
  | x :: xs => sortInsert x (jsSort xs)

/-- The filtered snapshot built by the for-of loop of getAllJobs: the Map
entries in insertion order, keeping an entry when no filter value was given
or when the JavaScript comparison entry value >= filter value holds. -/
def jobsOf (m : List (JSVal × JSVal)) (jobValue : JSVal) : List JobEntry :=
  (m.filter (fun p => !truthy jobValue || jsGe p.2 jobValue)).map
    (fun p => { JobID := p.1, JobValue := p.2 })

/-- cache.get at the given time: a stored entry is returned while the time
is strictly below its deadline, otherwise the read misses. -/
def cacheGet (c : Option (List JobEntry × Nat)) (now : Nat) : Option (List JobEntry) :=
  match c with
  | some (l, d) => if now < d then some l else none
  | none => none

/-- getAllJobs from the source: read the cache; when the read hit and no
filter value was given, return the cached listing unchanged; otherwise build
the filtered snapshot, sort it with the numeric comparator, store it in the
cache with a TTL of 10, and return it.  The cache write runs on every
recomputation, whether or not a filter value was given. -/
def getAllJobs (σ : RegState) (jobValue : JSVal) (now : Nat) : List JobEntry × RegState :=
  let cachedJobs := cacheGet σ.cache now
  if cachedJobs.isSome && !truthy jobValue then
    (cachedJobs.getD [], σ)
  else
    let jobs := jsSort (jobsOf σ.jobData jobValue)
    (jobs, { σ with cache := some (jobs, now + 10) })

/-- States reachable from process start by complete invocations of the three
operations. -/
inductive Reachable : RegState → Prop where
  | init : Reachable initState
  | add (σ : RegState) (id v : JSVal) : Reachable σ → Reachable (addJob σ id v).2
  | remove (σ : RegState) (id : JSVal) : Reachable σ → Reachable (removeJob σ id).2
  | list (σ : RegState) (mv : JSVal) (t : Nat) : Reachable σ → Reachable (getAllJobs σ mv t).2

/-- The numeric value of an entry, defaulting to 0 on NaN. -/
def entNum (e : JobEntry) : Int := (toNumber e.JobValue).getD 0

/-- Whether the value of an entry converts to a number. -/
def entNumeric (e : JobEntry) : Bool := (toNumber e.JobValue).isSome

/-- Selects the entries whose value converts to the given number. -/
def valFilt (k : Int) (e : JobEntry) : Bool := toNumber e.JobValue == some k

/-- Ordering of entries by their numeric value. -/
def entLeNum (a b : JobEntry) : Prop := entNum a ≤ entNum b

lemma setDelete_setAdd_self (s : List JSVal) (k : JSVal) (h : setHas s k = false) :
    setDelete (setAdd s k) k = s := by
  have hall : ∀ x ∈ s, (x == k) = false := by
    intro x hx
    by_contra hc
    have hx' : (x == k) = true := by
      cases hbe : (x == k) with
      | false => exact absurd hbe hc
      | true => rfl
    have : setHas s k = true := by
      simp only [setHas, List.any_eq_true]
      exact ⟨x, hx, hx'⟩
    simp [this] at h
  have hAdd : setAdd s k = s ++ [k] := by simp [setAdd, h]
  have h1 : s.filter (fun x => !(x == k)) = s := by
    apply List.filter_eq_self.mpr
    intro a ha
    simp [hall a ha]
  have h2 : [k].filter (fun x => !(x == k)) = [] := by simp
  rw [hAdd]
  unfold setDelete
  rw [List.filter_append, h1, h2, List.append_nil]

lemma addJob_lockedJobs (σ : RegState) (id v : JSVal) :
    (addJob σ id v).2.lockedJobs = σ.lockedJobs := by
  unfold addJob
  cases hval : validateJobInput id v with
  | some e => rfl
  | none =>
    simp only []
    by_cases hh : mapHas σ.jobData id = true
    · simp [hh]
    · have hh' : mapHas σ.jobData id = false := by
        cases hb : mapHas σ.jobData id with
        | false => rfl
        | true => exact absurd hb hh
      by_cases hl : setHas σ.lockedJobs id = true
      · simp [hh', hl]
      · have hl' : setHas σ.lockedJobs id = false := by
          cases hb : setHas σ.lockedJobs id with
          | false => rfl
          | true => exact absurd hb hl
        simp [hh', hl', setDelete_setAdd_self _ _ hl']

lemma removeJob_lockedJobs (σ : RegState) (id : JSVal) :
    (removeJob σ id).2.lockedJobs = σ.lockedJobs := by
  unfold removeJob
  cases hval : validateJobInput id (.vnum 100) with
  | some e => rfl
  | none =>
    simp only []
    by_cases hh : mapHas σ.jobData id = true
    · by_cases hl : setHas σ.lockedJobs id = true
      · simp [hh, hl]
      · have hl' : setHas σ.lockedJobs id = false := by
          cases hb : setHas σ.lockedJobs id with
          | false => rfl
          | true => exact absurd hb hl
        simp [hh, hl', setDelete_setAdd_self _ _ hl']
    · have hh' : mapHas σ.jobData id = false := by
        cases hb : mapHas σ.jobData id with
        | false => rfl
        | true => exact absurd hb hh
      simp [hh']

lemma getAllJobs_lockedJobs (σ : RegState) (mv : JSVal) (t : Nat) :
    (getAllJobs σ mv t).2.lockedJobs = σ.lockedJobs := by
  unfold getAllJobs
  by_cases h : ((cacheGet σ.cache t).isSome && !truthy mv) = true
  · simp [h]
  · simp [h]

lemma reachable_lockedJobs_nil {σ : RegState} (h : Reachable σ) : σ.lockedJobs = [] := by
  induction h with
  | init => rfl
  | add τ id v _ ih => rw [addJob_lockedJobs, ih]
  | remove τ id _ ih => rw [removeJob_lockedJobs, ih]
  | list τ mv t _ ih => rw [getAllJobs_lockedJobs, ih]

lemma sortInsert_perm (x : JobEntry) (l : List JobEntry) :
    (sortInsert x l).Perm (x :: l) := by
  induction l with
  | nil => exact List.Perm.refl _
  | cons y ys ih =>
    unfold sortInsert
    by_cases hc : cmpLe x y = true
    · simp [hc]
    · simp only [hc, if_false]
      exact (ih.cons y).trans (List.Perm.swap x y ys)

lemma jsSort_perm (l : List JobEntry) : (jsSort l).Perm l := by
  induction l with
  | nil => exact List.Perm.refl _
  | cons x xs ih => exact (sortInsert_perm x (jsSort xs)).trans (ih.cons x)

lemma mem_jsSort {a : JobEntry} {l : List JobEntry} : a ∈ jsSort l ↔ a ∈ l :=
  (jsSort_perm l).mem_iff

lemma cmpLe_iff_of_numeric {a b : JobEntry} (ha : entNumeric a = true)
    (hb : entNumeric b = true) : cmpLe a b = true ↔ entNum a ≤ entNum b := by
  obtain ⟨na, hna⟩ := Option.isSome_iff_exists.mp ha
  obtain ⟨nb, hnb⟩ := Option.isSome_iff_exists.mp hb
  simp only [cmpLe, jsSub, hna, hnb, entNum, Option.getD_some]
  constructor
  · intro h
    have := of_decide_eq_true h
    omega
  · intro h
    exact decide_eq_true (by omega)

lemma of_cmpLe_false {a b : JobEntry} (h : cmpLe a b = false) :
    entNumeric a = true ∧ entNumeric b = true ∧ entNum b < entNum a := by
  unfold cmpLe at h
  cases hna : toNumber a.JobValue with
  | none => simp [jsSub, hna] at h
  | some na =>
    cases hnb : toNumber b.JobValue with
    | none => simp [jsSub, hna, hnb] at h
    | some nb =>
      simp only [jsSub, hna, hnb] at h
      have : ¬ (na - nb ≤ 0) := of_decide_eq_false h
      refine ⟨by simp [entNumeric, hna], by simp [entNumeric, hnb], ?_⟩
      simp only [entNum, hna, hnb, Option.getD_some]
      omega

lemma pairwise_sortInsert (x : JobEntry) (l : List JobEntry)
    (hx : entNumeric x = true) (hl : ∀ e ∈ l, entNumeric e = true)
    (hp : l.Pairwise entLeNum) : (sortInsert x l).Pairwise entLeNum := by
  induction l with
  | nil => simp [sortInsert, List.pairwise_singleton]
  | cons y ys ih =>
    have hy : entNumeric y = true := hl y (List.mem_cons_self y ys)
    have hys : ∀ e ∈ ys, entNumeric e = true := fun e he => hl e (List.mem_cons_of_mem y he)
    rw [List.pairwise_cons] at hp
    unfold sortInsert
    by_cases hc : cmpLe x y = true
    · simp only [hc, if_true]
      have hxy : entNum x ≤ entNum y := (cmpLe_iff_of_numeric hx hy).mp hc
      refine List.Pairwise.cons ?_ (List.Pairwise.cons hp.1 hp.2)
      intro z hz
      rcases List.mem_cons.mp hz with hz | hz
      · rw [hz]; exact hxy
      · exact le_trans hxy (hp.1 z hz)
    · have hc' : cmpLe x y = false := by
        cases hb : cmpLe x y with
        | false => rfl
        | true => exact absurd hb hc
      simp only [hc', if_false]
      obtain ⟨_, _, hyx⟩ := of_cmpLe_false hc'
      refine List.Pairwise.cons ?_ (ih hys hp.2)
      intro z hz
      rcases List.mem_cons.mp ((sortInsert_perm x ys).mem_iff.mp hz) with hz | hz
      · rw [hz]; exact le_of_lt hyx
      · exact hp.1 z hz

lemma pairwise_jsSort (l : List JobEntry) (hl : ∀ e ∈ l, entNumeric e = true) :
    (jsSort l).Pairwise entLeNum := by
  induction l with
  | nil => simp [jsSort]
  | cons x xs ih =>
    unfold jsSort
    refine pairwise_sortInsert x (jsSort xs) (hl x (List.mem_cons_self x xs)) ?_
      (ih fun e he => hl e (List.mem_cons_of_mem x he))
    intro e he
    exact hl e (List.mem_cons_of_mem x (mem_jsSort.mp he))

lemma filter_sortInsert_neg (x : JobEntry) (l : List JobEntry) (k : Int)
    (hx : valFilt k x = false) :
    (sortInsert x l).filter (valFilt k) = l.filter (valFilt k) := by
  induction l with
  | nil => simp [sortInsert, hx]
  | cons y ys ih =>
    unfold sortInsert
    by_cases hc : cmpLe x y = true
    · simp [hc, List.filter_cons, hx]
    · rw [if_neg hc]
      simp only [List.filter_cons, ih]

lemma valFilt_false_of_lt {y : JobEntry} {k : Int} (hy : entNumeric y = true)
    (hlt : entNum y < k) : valFilt k y = false := by
  obtain ⟨ny, hny⟩ := Option.isSome_iff_exists.mp hy
  simp only [entNum, hny, Option.getD_some] at hlt
  simp only [valFilt, hny]
  simp
  omega

lemma filter_sortInsert_pos (x : JobEntry) (l : List JobEntry) (k : Int)
    (hx : valFilt k x = true) :
    (sortInsert x l).filter (valFilt k) = x :: l.filter (valFilt k) := by
  induction l with
  | nil => simp [sortInsert, hx]
  | cons y ys ih =>
    unfold sortInsert
    by_cases hc : cmpLe x y = true
    · simp [hc, List.filter_cons, hx]
    · have hc' : cmpLe x y = false := by
        cases hb : cmpLe x y with
        | false => rfl
        | true => exact absurd hb hc
      obtain ⟨hxn, hyn, hyx⟩ := of_cmpLe_false hc'
      have hxk : toNumber x.JobValue = some k := by
        have := hx
        simp only [valFilt, beq_iff_eq] at this
        exact this
      have hxnum : entNum x = k := by simp [entNum, hxk]
      have hyk : valFilt k y = false := valFilt_false_of_lt hyn (hxnum ▸ hyx)
      rw [if_neg hc]
      simp [List.filter_cons, hyk, ih]

lemma filter_jsSort (l : List JobEntry) (k : Int) :
    (jsSort l).filter (valFilt k) = l.filter (valFilt k) := by
  induction l with
  | nil => rfl
  | cons x xs ih =>
    unfold jsSort
    by_cases hx : valFilt k x = true
    · rw [filter_sortInsert_pos x (jsSort xs) k hx, ih, List.filter_cons, hx]
      simp
    · have hx' : valFilt k x = false := by
        cases hb : valFilt k x with
        | false => rfl
        | true => exact absurd hb hx
      rw [filter_sortInsert_neg x (jsSort xs) k hx', ih, List.filter_cons, hx']
      simp

lemma getAllJobs_recompute (σ : RegState) (mv : JSVal) (t : Nat)
    (h : cacheGet σ.cache t = none ∨ truthy mv = true) :
    getAllJobs σ mv t =
      (jsSort (jobsOf σ.jobData mv),
       { σ with cache := some (jsSort (jobsOf σ.jobData mv), t + 10) }) := by
  unfold getAllJobs
  rcases h with h | h
  · simp [h]
  · simp [h]

lemma getAllJobs_hit (σ : RegState) (l : List JobEntry) (d t : Nat)
    (hc : σ.cache = some (l, d)) (ht : t < d) :
    getAllJobs σ .vundef t = (l, σ) := by
  unfold getAllJobs
  simp [cacheGet, hc, ht, truthy]

lemma mem_mapSet_self (m : List (JSVal × JSVal)) (k v : JSVal) :
    (k, v) ∈ mapSet m k v := by
  unfold mapSet
  by_cases h : mapHas m k = true
  · simp only [h, if_true]
    obtain ⟨p, hp, hpk⟩ := List.any_eq_true.mp h
    refine List.mem_map.mpr ⟨p, hp, ?_⟩
    simp [hpk]
  · have h' : mapHas m k = false := by
      cases hb : mapHas m k with
      | false => rfl
      | true => exact absurd hb h
    simp [h']

lemma mem_jobsOf_unfiltered (m : List (JSVal × JSVal)) (k v : JSVal)
    (h : (k, v) ∈ m) : ({ JobID := k, JobValue := v } : JobEntry) ∈ jobsOf m .vundef := by
  unfold jobsOf
  refine List.mem_map.mpr ⟨(k, v), ?_, rfl⟩
  refine List.mem_filter.mpr ⟨h, ?_⟩
  simp [truthy]

lemma mapHas_mapSet_self (m : List (JSVal × JSVal)) (k v : JSVal) :
    mapHas (mapSet m k v) k = true := by
  unfold mapHas
  refine List.any_eq_true.mpr ⟨(k, v), mem_mapSet_self m k v, ?_⟩
  simp

lemma addJob_ok_state (σ : RegState) (id v : JSVal) (h : (addJob σ id v).1 = .ok ()) :
    (addJob σ id v).2 = ⟨mapSet σ.jobData id v, σ.lockedJobs, none⟩ := by
  cases hval : validateJobInput id v with
  | some e => simp [addJob, hval] at h
  | none =>
    simp only [addJob, hval] at h ⊢
    by_cases hh : mapHas σ.jobData id = true
    · rw [if_pos hh] at h; simp at h
    · rw [if_neg hh] at h ⊢
      by_cases hl : setHas σ.lockedJobs id = true
      · rw [if_pos hl] at h; simp at h
      · rw [if_neg hl]
        have hl' : setHas σ.lockedJobs id = false := by
          cases hb : setHas σ.lockedJobs id with
          | false => rfl
          | true => exact absurd hb hl
        simp [setDelete_setAdd_self _ _ hl']

lemma removeJob_ok_cache (σ : RegState) (id : JSVal) (h : (removeJob σ id).1 = .ok ()) :
    (removeJob σ id).2.cache = none := by
  cases hval : validateJobInput id (.vnum 100) with
  | some e => simp [removeJob, hval] at h
  | none =>
    simp only [removeJob, hval] at h ⊢
    by_cases hh : (!mapHas σ.jobData id) = true
    · rw [if_pos hh] at h; simp at h
    · rw [if_neg hh] at h ⊢
      by_cases hl : setHas σ.lockedJobs id = true
      · rw [if_pos hl] at h; simp at h
      · rw [if_neg hl]

lemma addJob_error_state (σ : RegState) (id v : JSVal) (e : JobError)
    (h : (addJob σ id v).1 = .error e) : (addJob σ id v).2 = σ := by
  cases hval : validateJobInput id v with
  | some e₂ => simp [addJob, hval]
  | none =>
    simp only [addJob, hval] at h ⊢
    by_cases hh : mapHas σ.jobData id = true
    · rw [if_pos hh]
    · rw [if_neg hh] at h ⊢
      by_cases hl : setHas σ.lockedJobs id = true
      · rw [if_pos hl]
      · rw [if_neg hl] at h; simp at h

lemma removeJob_error_state (σ : RegState) (id : JSVal) (e : JobError)
    (h : (removeJob σ id).1 = .error e) : (removeJob σ id).2 = σ := by
  cases hval : validateJobInput id (.vnum 100) with
  | some e₂ => simp [removeJob, hval]
  | none =>
    simp only [removeJob, hval] at h ⊢
    by_cases hh : (!mapHas σ.jobData id) = true
    · rw [if_pos hh]
    · rw [if_neg hh] at h ⊢
      by_cases hl : setHas σ.lockedJobs id = true
      · rw [if_pos hl]
      · rw [if_neg hl] at h; simp at h

/-- Claim C1 (code behavior at the failing input): running the spec scenario
through the model with the string values the HTTP boundary delivers, both
adds succeed, but the listing filtered with minValue 6 returns the empty
list rather than the single entry B with value 10, because the comparison
entry value >= filter value on two strings is lexicographic: the string 10
is below the string 6. -/
theorem claim_C1_lexicographic_filter :
    (addJob initState (JSVal.vstr "A") (JSVal.vstr "5")).1 = .ok () ∧
    (addJob (addJob initState (JSVal.vstr "A") (JSVal.vstr "5")).2
        (JSVal.vstr "B") (JSVal.vstr "10")).1 = .ok () ∧
    (getAllJobs (addJob (addJob initState (JSVal.vstr "A") (JSVal.vstr "5")).2
        (JSVal.vstr "B") (JSVal.vstr "10")).2 (JSVal.vstr "6") 0).1 = [] :=
  ⟨rfl, rfl, rfl⟩

/-- Claim C2 (counterexample to the claim as stated): a filtered list call
does write the result cache.  Starting from a state whose cache holds the
listing [] with deadline 100, a list call with the filter value 1 leaves a
different cache entry behind. -/
theorem claim_C2_counterexample :
    (getAllJobs ⟨[(JSVal.vstr "A", JSVal.vstr "5")], [], some ([], 100)⟩
        (JSVal.vstr "1") 0).2.cache ≠ some ([], 100) := by
  decide

/-- Claim C2 (amended): a filtered list call never uses the cached value
and never reads it observably - its result and final state are determined
by the job store alone - but it does write the cache: the recomputed
filtered listing is stored with TTL 10, overwriting any cached unfiltered
listing. -/
theorem claim_C2_filtered_cache (σ : RegState) (mv : JSVal) (t : Nat)
    (h : truthy mv = true) :
    getAllJobs σ mv t =
      (jsSort (jobsOf σ.jobData mv),
       { σ with cache := some (jsSort (jobsOf σ.jobData mv), t + 10) }) :=
  getAllJobs_recompute σ mv t (Or.inr h)

/-- Witness for the amended claim C2 at a concrete filtered call. -/
theorem claim_C2_filtered_cache_witness :
    getAllJobs ⟨[(JSVal.vstr "A", JSVal.vstr "5")], [], some ([], 100)⟩
        (JSVal.vstr "1") 3 =
      ([⟨JSVal.vstr "A", JSVal.vstr "5"⟩],
       ⟨[(JSVal.vstr "A", JSVal.vstr "5")], [], some ([⟨JSVal.vstr "A", JSVal.vstr "5"⟩], 13)⟩) :=
  (claim_C2_filtered_cache ⟨[(JSVal.vstr "A", JSVal.vstr "5")], [], some ([], 100)⟩
      (JSVal.vstr "1") 3 (by decide)).trans (by decide)

/-- Claim C3: addJob fails with InvalidInput exactly when the id or the
value is falsy; otherwise with AlreadyExists exactly when the store has the
id; otherwise with AlreadyProcessing exactly when the id is locked;
otherwise it succeeds.  The four cases are mutually exclusive and follow
the order of the checks in the source. -/
theorem claim_C3_addJob_error_order (σ : RegState) (id v : JSVal) :
    ((addJob σ id v).1 = .error .invalidInput ↔
       (truthy id = false ∨ truthy v = false)) ∧
    ((addJob σ id v).1 = .error .alreadyExists ↔
       (truthy id = true ∧ truthy v = true ∧ mapHas σ.jobData id = true)) ∧
    ((addJob σ id v).1 = .error .alreadyProcessing ↔
       (truthy id = true ∧ truthy v = true ∧ mapHas σ.jobData id = false ∧
        setHas σ.lockedJobs id = true)) ∧
    ((addJob σ id v).1 = .ok () ↔
       (truthy id = true ∧ truthy v = true ∧ mapHas σ.jobData id = false ∧
        setHas σ.lockedJobs id = false)) := by
  cases hid : truthy id <;> cases hv : truthy v <;>
    cases hh : mapHas σ.jobData id <;> cases hl : setHas σ.lockedJobs id <;>
      simp [addJob, validateJobInput, hid, hv, hh, hl]

/-- Witness for claim C3: an empty id is rejected with InvalidInput. -/
theorem claim_C3_witness :
    (addJob initState (JSVal.vstr "") (JSVal.vstr "5")).1 = .error .invalidInput :=
  (claim_C3_addJob_error_order initState (JSVal.vstr "") (JSVal.vstr "5")).1.mpr
    (Or.inl (by decide))

/-- Claim C4: after a successful addJob the store contains the id and the
cache entry has been deleted, so every subsequent unfiltered list call at
any time recomputes and its result contains the added job; a successful
removeJob also leaves the cache entry deleted. -/
theorem claim_C4_success_invalidates (σ τ : RegState) (id rid v : JSVal) :
    ((addJob σ id v).1 = .ok () →
       mapHas (addJob σ id v).2.jobData id = true ∧
       (addJob σ id v).2.cache = none ∧
       ∀ t : Nat,
         ({ JobID := id, JobValue := v } : JobEntry) ∈
           (getAllJobs (addJob σ id v).2 .vundef t).1) ∧
    ((removeJob τ rid).1 = .ok () → (removeJob τ rid).2.cache = none) := by
  constructor
  · intro h
    rw [addJob_ok_state σ id v h]
    refine ⟨mapHas_mapSet_self σ.jobData id v, rfl, ?_⟩
    intro t
    rw [getAllJobs_recompute ⟨mapSet σ.jobData id v, σ.lockedJobs, none⟩
      .vundef t (Or.inl rfl)]
    exact mem_jsSort.mpr (mem_jobsOf_unfiltered _ id v (mem_mapSet_self σ.jobData id v))
  · intro h
    exact removeJob_ok_cache τ rid h

/-- Witness for claim C4 at concrete successful add and remove calls. -/
theorem claim_C4_witness :
    (mapHas (addJob initState (JSVal.vstr "A") (JSVal.vstr "5")).2.jobData
        (JSVal.vstr "A") = true ∧
     (addJob initState (JSVal.vstr "A") (JSVal.vstr "5")).2.cache = none ∧
     ({ JobID := JSVal.vstr "A", JobValue := JSVal.vstr "5" } : JobEntry) ∈
       (getAllJobs (addJob initState (JSVal.vstr "A") (JSVal.vstr "5")).2 .vundef 0).1) ∧
    (removeJob ⟨[(JSVal.vstr "A", JSVal.vstr "5")], [], some ([], 100)⟩
        (JSVal.vstr "A")).2.cache = none := by
  have h := claim_C4_success_invalidates initState
    ⟨[(JSVal.vstr "A", JSVal.vstr "5")], [], some ([], 100)⟩
    (JSVal.vstr "A") (JSVal.vstr "A") (JSVal.vstr "5")
  obtain ⟨h1, h2⟩ := h
  have ha := h1 rfl
  exact ⟨⟨ha.1, ha.2.1, ha.2.2 0⟩, h2 rfl⟩

/-- Claim C5: removeJob fails with InvalidInput exactly when the id is
falsy - the value argument is the placeholder 100 and can never cause the
failure; otherwise with NotFound exactly when the store lacks the id;
otherwise with AlreadyProcessing exactly when the id is locked; otherwise
it succeeds. -/
theorem claim_C5_removeJob_error_order (σ : RegState) (id : JSVal) :
    ((removeJob σ id).1 = .error .invalidInput ↔ truthy id = false) ∧
    ((removeJob σ id).1 = .error .notFound ↔
       (truthy id = true ∧ mapHas σ.jobData id = false)) ∧
    ((removeJob σ id).1 = .error .alreadyProcessing ↔
       (truthy id = true ∧ mapHas σ.jobData id = true ∧
        setHas σ.lockedJobs id = true)) ∧
    ((removeJob σ id).1 = .ok () ↔
       (truthy id = true ∧ mapHas σ.jobData id = true ∧
        setHas σ.lockedJobs id = false)) := by
  have h100 : truthy (JSVal.vnum 100) = true := rfl
  cases hid : truthy id <;>
    cases hh : mapHas σ.jobData id <;> cases hl : setHas σ.lockedJobs id <;>
      simp [removeJob, validateJobInput, h100, hid, hh, hl]

/-- Witness for claim C5: removing a never-added id fails with NotFound. -/
theorem claim_C5_witness :
    (removeJob initState (JSVal.vstr "Z")).1 = .error .notFound :=
  (claim_C5_removeJob_error_order initState (JSVal.vstr "Z")).2.1.mpr
    ⟨by decide, rfl⟩

/-- Claim C6: an unfiltered list call that hits an unexpired cache entry
returns the cached listing unchanged with no state change; starting with an
empty cache, a second unfiltered call within 10 time units of the first
returns the identical result by the cache, and a call at or after the
deadline recomputes the listing from the job store. -/
theorem claim_C6_cache (σ : RegState) (l : List JobEntry) (d t₀ t₁ t₂ t₃ : Nat) :
    (σ.cache = some (l, d) → t₀ < d → getAllJobs σ .vundef t₀ = (l, σ)) ∧
    (σ.cache = none →
      ((getAllJobs σ .vundef t₁).1 = jsSort (jobsOf σ.jobData .vundef)) ∧
      (t₂ < t₁ + 10 →
        getAllJobs (getAllJobs σ .vundef t₁).2 .vundef t₂ =
          ((getAllJobs σ .vundef t₁).1, (getAllJobs σ .vundef t₁).2)) ∧
      (t₁ + 10 ≤ t₃ →
        (getAllJobs (getAllJobs σ .vundef t₁).2 .vundef t₃).1 =
          jsSort (jobsOf σ.jobData .vundef))) := by
  constructor
  · intro hc ht
    exact getAllJobs_hit σ l d t₀ hc ht
  · intro hnone
    have h1 : getAllJobs σ .vundef t₁ =
        (jsSort (jobsOf σ.jobData .vundef),
         { σ with cache := some (jsSort (jobsOf σ.jobData .vundef), t₁ + 10) }) :=
      getAllJobs_recompute σ .vundef t₁ (Or.inl (by rw [hnone]; rfl))
    refine ⟨by rw [h1], ?_, ?_⟩
    · intro ht₂
      rw [h1]
      exact getAllJobs_hit _ _ (t₁ + 10) t₂ rfl ht₂
    · intro ht₃
      rw [h1]
      rw [getAllJobs_recompute _ .vundef t₃
        (Or.inl (by simp [cacheGet, Nat.not_lt.mpr ht₃]))]

/-- Witness for claim C6: a concrete cache hit, and the three-call
scenario starting from an empty cache. -/
theorem claim_C6_witness :
    (getAllJobs ⟨[(JSVal.vstr "A", JSVal.vstr "5")], [], some ([], 20)⟩ .vundef 5 =
      ([], ⟨[(JSVal.vstr "A", JSVal.vstr "5")], [], some ([], 20)⟩)) ∧
    ((getAllJobs ⟨[(JSVal.vstr "A", JSVal.vstr "5")], [], none⟩ .vundef 0).1 =
      jsSort (jobsOf [(JSVal.vstr "A", JSVal.vstr "5")] .vundef)) ∧
    (getAllJobs (getAllJobs ⟨[(JSVal.vstr "A", JSVal.vstr "5")], [], none⟩ .vundef 0).2
        .vundef 9 =
      ((getAllJobs ⟨[(JSVal.vstr "A", JSVal.vstr "5")], [], none⟩ .vundef 0).1,
       (getAllJobs ⟨[(JSVal.vstr "A", JSVal.vstr "5")], [], none⟩ .vundef 0).2)) ∧
    ((getAllJobs (getAllJobs ⟨[(JSVal.vstr "A", JSVal.vstr "5")], [], none⟩ .vundef 0).2
        .vundef 10).1 =
      jsSort (jobsOf [(JSVal.vstr "A", JSVal.vstr "5")] .vundef)) := by
  have ha := (claim_C6_cache ⟨[(JSVal.vstr "A", JSVal.vstr "5")], [], some ([], 20)⟩
    [] 20 5 0 0 0).1 rfl (by decide)
  have hb := (claim_C6_cache ⟨[(JSVal.vstr "A", JSVal.vstr "5")], [], none⟩
    [] 0 0 0 9 10).2 rfl
  exact ⟨ha, hb.1, hb.2.1 (by decide), hb.2.2 (by decide)⟩

/-- Claim C7: every list call that recomputes - because the cache read
missed or a filter value was supplied - returns a listing sorted ascending
by numeric value, and the sort is stable: for each value, the entries with
that value appear exactly as in the filtered store enumeration. -/
theorem claim_C7_sorted_stable (σ : RegState) (mv : JSVal) (t : Nat)
    (hnum : ∀ p ∈ σ.jobData, (toNumber p.2).isSome = true)
    (hre : cacheGet σ.cache t = none ∨ truthy mv = true) :
    ((getAllJobs σ mv t).1).Pairwise entLeNum ∧
    ∀ k : Int,
      ((getAllJobs σ mv t).1).filter (valFilt k) =
        (jobsOf σ.jobData mv).filter (valFilt k) := by
  rw [getAllJobs_recompute σ mv t hre]
  constructor
  · apply pairwise_jsSort
    intro e he
    obtain ⟨p, hp, hpe⟩ := List.mem_map.mp he
    have hpm : p ∈ σ.jobData := (List.mem_filter.mp hp).1
    rw [← hpe]
    exact hnum p hpm
  · intro k
    exact filter_jsSort _ k

/-- Witness for claim C7 at a concrete store with a duplicate value. -/
theorem claim_C7_witness :
    ((getAllJobs ⟨[(JSVal.vstr "a", JSVal.vstr "5"), (JSVal.vstr "b", JSVal.vstr "3"),
        (JSVal.vstr "c", JSVal.vstr "5")], [], none⟩ .vundef 0).1).Pairwise entLeNum ∧
    ((getAllJobs ⟨[(JSVal.vstr "a", JSVal.vstr "5"), (JSVal.vstr "b", JSVal.vstr "3"),
        (JSVal.vstr "c", JSVal.vstr "5")], [], none⟩ .vundef 0).1).filter (valFilt 5) =
      (jobsOf [(JSVal.vstr "a", JSVal.vstr "5"), (JSVal.vstr "b", JSVal.vstr "3"),
        (JSVal.vstr "c", JSVal.vstr "5")] .vundef).filter (valFilt 5) := by
  have h := claim_C7_sorted_stable
    ⟨[(JSVal.vstr "a", JSVal.vstr "5"), (JSVal.vstr "b", JSVal.vstr "3"),
      (JSVal.vstr "c", JSVal.vstr "5")], [], none⟩ .vundef 0
    (by decide) (Or.inl rfl)
  exact ⟨h.1, h.2 5⟩

/-- Claim C8: when addJob or removeJob fails with any error, the whole
state - job store, lock set and cache - is exactly as before the call. -/
theorem claim_C8_no_partial_mutation (σ τ : RegState) (id rid v : JSVal) :
    (∀ e : JobError, (addJob σ id v).1 = .error e → (addJob σ id v).2 = σ) ∧
    (∀ e : JobError, (removeJob τ rid).1 = .error e → (removeJob τ rid).2 = τ) :=
  ⟨fun e h => addJob_error_state σ id v e h,
   fun e h => removeJob_error_state τ rid e h⟩

/-- Witness for claim C8: concrete failing add and remove calls leave the
initial state untouched. -/
theorem claim_C8_witness :
    (addJob initState (JSVal.vstr "") (JSVal.vstr "5")).2 = initState ∧
    (removeJob initState (JSVal.vstr "Z")).2 = initState :=
  ⟨(claim_C8_no_partial_mutation initState initState (JSVal.vstr "")
      (JSVal.vstr "Z") (JSVal.vstr "5")).1 .invalidInput rfl,
   (claim_C8_no_partial_mutation initState initState (JSVal.vstr "")
      (JSVal.vstr "Z") (JSVal.vstr "5")).2 .notFound rfl⟩

/-- Claim C9: every complete addJob or removeJob invocation, on success or
on any error, leaves the lock set exactly as it was, and in every state
reachable by complete operations from process start the identifier is not
in the lock set after the invocation. -/
theorem claim_C9_lock_released (σ : RegState) (id v : JSVal) :
    (addJob σ id v).2.lockedJobs = σ.lockedJobs ∧
    (removeJob σ id).2.lockedJobs = σ.lockedJobs ∧
    (Reachable σ →
      id ∉ (addJob σ id v).2.lockedJobs ∧ id ∉ (removeJob σ id).2.lockedJobs) := by
  refine ⟨addJob_lockedJobs σ id v, removeJob_lockedJobs σ id, ?_⟩
  intro h
  rw [addJob_lockedJobs, removeJob_lockedJobs, reachable_lockedJobs_nil h]
  simp

/-- Witness for claim C9 at the initial state. -/
theorem claim_C9_witness :
    JSVal.vstr "A" ∉ (addJob initState (JSVal.vstr "A") (JSVal.vstr "5")).2.lockedJobs ∧
    JSVal.vstr "A" ∉ (removeJob initState (JSVal.vstr "A")).2.lockedJobs :=
  (claim_C9_lock_released initState (JSVal.vstr "A") (JSVal.vstr "5")).2.2
    Reachable.init

/-- Claim C10: addJob rejects the numeric value 0 - and every falsy value -
with InvalidInput and leaves the state unchanged, so a job with value 0 can
never be added. -/
theorem claim_C10_falsy_value_rejected (σ : RegState) (id v : JSVal) :
    addJob σ id (.vnum 0) = (.error .invalidInput, σ) ∧
    (truthy v = false → addJob σ id v = (.error .invalidInput, σ)) := by
  constructor
  · simp [addJob, validateJobInput, truthy]
  · intro h
    simp [addJob, validateJobInput, h]

/-- Witness for claim C10 at a concrete id and the empty-string value. -/
theorem claim_C10_witness :
    addJob initState (JSVal.vstr "J") (JSVal.vnum 0) =
      (.error .invalidInput, initState) ∧
    addJob initState (JSVal.vstr "J") (JSVal.vstr "") =
      (.error .invalidInput, initState) :=
  ⟨(claim_C10_falsy_value_rejected initState (JSVal.vstr "J") (JSVal.vstr "")).1,
   (claim_C10_falsy_value_rejected initState (JSVal.vstr "J") (JSVal.vstr "")).2
     (by decide)⟩

end CrudJobs
